import Mathlib

/-!
Verification of `src/mem/pool.h` (snmalloc object pool).

The pool manages objects of a fixed type `T`.  Each pooled object carries a
free-list link (`next`, used by the MPMC stack), a registry link
(`list_next`) and an in-use flag.  The pool state bundles a lock, the
free-list stack and the registry head (`list`).

Shallow embedding choices:
- Objects are identified by a `Nat` id assigned in construction order by the
  memory supplier model (id 0 is the first object ever constructed).
- A heap `Nat → Obj` carries each object's in-use flag and a `data` field
  standing for all other fields of `T`.
- The linked structures (the MPMC stack's `next` chain and the registry's
  `list_next` chain) are represented as Lean lists of ids; the head of the
  list is the C++ head pointer and the list successor relation is the link
  field.  `list_next` below recovers the registry link field from the list.
- The embedding is sequential: each C++ operation is one atomic Lean
  function, matching the linearizability contract of `MPMCStack` and the
  `FlagLock`-protected registry splice.
-/

set_option autoImplicit false

namespace SnPool

/-- A pooled object as seen through the pool's operations: the in-use flag
set/cleared by `set_in_use`/`reset_in_use`, and `data`, standing for every
other field of `T` (the pool never touches those).  The `next` and
`list_next` link fields are represented by list positions, not stored here. -/
structure Obj where
  in_use : Bool
  data : Nat
deriving DecidableEq, Repr

/-- Modelled from the spec: `MPMCStack<T, PreZeroed>` (file
`src/ds/mpmcstack.h` is not part of the given sources).  Per spec section
4.2 it is a linearizable linked stack with `push(node)`, `push(first,last)`,
`pop()` and `pop_all()`; we represent the chain of `next` links as a list
whose head is the stack top. -/
abbrev Stack := List Nat

/-- `MPMCStack::push(node)`: insert one object at the top. -/
def Stack.push (st : Stack) (p : Nat) : Stack := p :: st

/-- `MPMCStack::push(first, last)`: splice a whole chain onto the top as a
single batch.  The chain `first..last` is given as the list of its nodes. -/
def Stack.pushChain (st : Stack) (chain : List Nat) : Stack := chain ++ st

/-- `MPMCStack::pop()`: remove and return the most recently accessible
object, or a null result (`none`) if empty. -/
def Stack.pop (st : Stack) : Option Nat × Stack :=
  match st with
  | [] => (none, [])
  | p :: rest => (some p, rest)

/-- `MPMCStack::pop_all()`: atomically detach and return the entire chain,
leaving the stack empty. -/
def Stack.popAll (st : Stack) : List Nat × Stack := (st, [])

/-- `PoolState<T>`: the lock (irrelevant in the sequential embedding), the
free-list `stack`, and the registry head `list`.  The registry's `list_next`
chain is represented by the list `list` (head pointer = list head).  `heap`
gives each object's fields and `nextId` is the supplier's fresh-id counter
(ids are dispensed in construction order). -/
structure PoolState where
  stack : Stack
  list : List Nat
  heap : Nat → Obj
  nextId : Nat

/-- The initial pool state: empty free-list, empty registry, no object
constructed yet. -/
def initPool : PoolState :=
  { stack := [], list := [], heap := fun _ => ⟨false, 0⟩, nextId := 0 }

/-- `p->set_in_use()` / `p->reset_in_use()`: update one object's flag. -/
def setInUse (h : Nat → Obj) (p : Nat) (b : Bool) : Nat → Obj :=
  fun q => if q = p then { h q with in_use := b } else h q

/-- Outcome of `Pool::acquire`.  `ok p hit s` returns object `p` with the
updated pool state `s`; `hit` records whether the free-list hit path was
taken (no lock, no supplier call).  Modelled from the spec:
`SharedStateHandle::Pal::error` (the PAL is not part of the given sources)
reports a fatal message and halts the process, so a failed supplier call is
a terminal `fatalError` outcome carrying the message and the (unchanged)
state at the halt. -/
inductive AcquireOut where
  | ok (p : Nat) (hit : Bool) (s : PoolState)
  | fatalError (msg : String) (s : PoolState)

/-- `Pool::acquire(args...)`.  `supplierOk` models whether
`ChunkAllocator::alloc_meta_data` succeeds; `d` models the `args` used to
construct the new object (its `data` field).  Mirrors the source: pop the
stack; on a hit, `set_in_use` and return; on a miss, call the supplier,
report a fatal error if it returns null, otherwise splice the fresh object
onto the registry head under the lock, `set_in_use`, and return. -/
def acquire (supplierOk : Bool) (d : Nat) (s : PoolState) : AcquireOut :=
  match (Stack.pop s.stack).1 with
  | some p =>
      AcquireOut.ok p true
        { s with stack := (Stack.pop s.stack).2, heap := setInUse s.heap p true }
  | none =>
      if supplierOk then
        let p := s.nextId
        let constructed : Nat → Obj := fun q => if q = p then ⟨false, d⟩ else s.heap q
        AcquireOut.ok p false
          { stack := (Stack.pop s.stack).2
            list := p :: s.list
            heap := setInUse constructed p true
            nextId := s.nextId + 1 }
      else
        AcquireOut.fatalError "Failed to initialise thread local allocator." s

/-- `Pool::release(p)`: `reset_in_use` then push onto the free-list.  No
destructor or reset runs; `data` and the registry are untouched. -/
def release (p : Nat) (s : PoolState) : PoolState :=
  { s with heap := setInUse s.heap p false, stack := s.stack.push p }

/-- `Pool::extract(nullptr)`: `pop_all` — detach and return the whole
free-list chain, leaving the free-list empty. -/
def extractAll (s : PoolState) : List Nat × PoolState :=
  ((Stack.popAll s.stack).1, { s with stack := (Stack.popAll s.stack).2 })

/-- The successor relation of a singly linked chain represented as a list:
`list_next chain p` is the node `p`'s link field, i.e. the element following
the first occurrence of `p` (`none` both for the last node, whose link is
null, and for nodes not on the chain). -/
def list_next : List Nat → Nat → Option Nat
  | [], _ => none
  | a :: l, p => if p = a then l.head? else list_next l p

/-- `Pool::extract(p)` with `p != nullptr`: pure chain walk, returns
`p->next` in the detached chain. -/
def extractNext (chain : List Nat) (p : Nat) : Option Nat :=
  list_next chain p

/-- `Pool::restore(first, last)`: push the previously extracted chain back
onto the free-list in one batch. -/
def restore (chain : List Nat) (s : PoolState) : PoolState :=
  { s with stack := s.stack.pushChain chain }

/-- `Pool::iterate`: `iterate(nullptr)` returns the registry head
`pool.list`; `iterate(p)` returns `p->list_next`. -/
def iterate (s : PoolState) : Option Nat → Option Nat
  | none => s.list.head?
  | some p => list_next s.list p

/-- Walk a successor function from a starting point, collecting visited
nodes; `fuel` bounds the walk. -/
def walk (f : Nat → Option Nat) : Nat → Option Nat → List Nat
  | _, none => []
  | 0, some _ => []
  | n + 1, some p => p :: walk f n (f p)

/-- A full `iterate` traversal: start at `iterate s none` and repeatedly
apply `iterate s (some p)`, with enough fuel to visit the whole registry. -/
def fullIterate (s : PoolState) : List Nat :=
  walk (fun p => iterate s (some p)) s.list.length (iterate s none)

/-- The whole system: the pool state plus the ghost multiset of objects
currently detached by `extract(nullptr)` and not yet restored (the
"claimed" window). -/
structure Sys where
  pool : PoolState
  claimed : List Nat

/-- The initial system: fresh pool, nothing claimed. -/
def initSys : Sys := ⟨initPool, []⟩

/-- One legal operation of the pool API, as constrained by its contract:
`release` is applied only to an object previously handed out by `acquire`
(a registered, in-use object), and `restore` returns exactly the claimed
chain obtained from `extract(nullptr)`. -/
inductive Step : Sys → Sys → Prop where
  | acq (s : Sys) (sok : Bool) (d : Nat) (p : Nat) (hit : Bool) (ps : PoolState) :
      acquire sok d s.pool = AcquireOut.ok p hit ps →
      Step s ⟨ps, s.claimed⟩
  | rel (s : Sys) (p : Nat) :
      p ∈ s.pool.list → (s.pool.heap p).in_use = true →
      Step s ⟨release p s.pool, s.claimed⟩
  | ext (s : Sys) :
      Step s ⟨(extractAll s.pool).2, (extractAll s.pool).1 ++ s.claimed⟩
  | res (s : Sys) :
      Step s ⟨restore s.claimed s.pool, []⟩

/-- States reachable from the initial system by legal operations. -/
def Reachable (s : Sys) : Prop := Relation.ReflTransGen Step initSys s

/-- The system invariant: registry ids are below the fresh counter and
strictly decreasing (newest first), free-list and claimed chain are
duplicate-free disjoint sub-collections of the registry holding exactly the
not-in-use objects. -/
structure Inv (s : Sys) : Prop where
  bound : ∀ x ∈ s.pool.list, x < s.pool.nextId
  sorted : s.pool.list.Pairwise (· > ·)
  stack_sub : ∀ x ∈ s.pool.stack, x ∈ s.pool.list
  claimed_sub : ∀ x ∈ s.claimed, x ∈ s.pool.list
  stack_nodup : s.pool.stack.Nodup
  claimed_nodup : s.claimed.Nodup
  disj : ∀ x ∈ s.pool.stack, x ∉ s.claimed
  stack_free : ∀ x ∈ s.pool.stack, (s.pool.heap x).in_use = false
  claimed_free : ∀ x ∈ s.claimed, (s.pool.heap x).in_use = false
  free_mem : ∀ x ∈ s.pool.list, (s.pool.heap x).in_use = false →
    x ∈ s.pool.stack ∨ x ∈ s.claimed

theorem inv_init : Inv initSys := by
  constructor <;> simp [initSys, initPool]

theorem inv_step (s s' : Sys) (hinv : Inv s) (hstep : Step s s') : Inv s' := by
  obtain ⟨bound, sorted, stack_sub, claimed_sub, stack_nodup, claimed_nodup,
    disj, stack_free, claimed_free, free_mem⟩ := hinv
  cases hstep with
  | acq sok d p hit ps hacq =>
    cases hstack : s.pool.stack with
    | nil =>
      rw [hstack] at stack_sub stack_nodup disj stack_free free_mem
      rw [acquire, hstack] at hacq
      cases sok with
      | false => simp [Stack.pop] at hacq
      | true =>
        simp only [Stack.pop, reduceIte, AcquireOut.ok.injEq] at hacq
        obtain ⟨hp, _hhit, hps⟩ := hacq
        subst hp
        subst hps
        constructor <;> dsimp only
        · intro x hx
          rcases List.mem_cons.mp hx with h | h
          · omega
          · have := bound x h; omega
        · exact List.pairwise_cons.mpr ⟨fun x hx => bound x hx, sorted⟩
        · intro x hx; simp at hx
        · intro x hx; exact List.mem_cons_of_mem _ (claimed_sub x hx)
        · simp
        · exact claimed_nodup
        · intro x hx; simp at hx
        · intro x hx; simp at hx
        · intro x hx
          have hxl := claimed_sub x hx
          have hne : x ≠ s.pool.nextId := by have := bound x hxl; omega
          simp only [setInUse, if_neg hne]
          exact claimed_free x hx
        · intro x hx hfree
          rcases List.mem_cons.mp hx with h | h
          · subst h; simp [setInUse] at hfree
          · have hne : x ≠ s.pool.nextId := by have := bound x h; omega
            simp only [setInUse, if_neg hne] at hfree
            rcases free_mem x h hfree with hc | hc
            · simp at hc
            · exact Or.inr hc
    | cons a rest =>
      rw [acquire, hstack] at hacq
      simp only [Stack.pop, AcquireOut.ok.injEq] at hacq
      obtain ⟨hp, _hhit, hps⟩ := hacq
      subst hp
      subst hps
      rw [hstack] at stack_sub stack_nodup disj stack_free free_mem
      have hanotin : a ∉ rest := (List.nodup_cons.mp stack_nodup).1
      constructor <;> dsimp only
      · exact bound
      · exact sorted
      · intro x hx; exact stack_sub x (List.mem_cons_of_mem _ hx)
      · exact claimed_sub
      · exact (List.nodup_cons.mp stack_nodup).2
      · exact claimed_nodup
      · intro x hx; exact disj x (List.mem_cons_of_mem _ hx)
      · intro x hx
        have hne : x ≠ a := fun h => hanotin (h ▸ hx)
        simp only [setInUse, if_neg hne]
        exact stack_free x (List.mem_cons_of_mem _ hx)
      · intro x hx
        have hne : x ≠ a := by
          intro h; subst h
          exact disj x (List.mem_cons_self _ _) hx
        simp only [setInUse, if_neg hne]
        exact claimed_free x hx
      · intro x hx hfree
        by_cases hxp : x = a
        · subst hxp; simp [setInUse] at hfree
        · simp only [setInUse, if_neg hxp] at hfree
          rcases free_mem x hx hfree with hc | hc
          · rcases List.mem_cons.mp hc with h | h
            · exact absurd h hxp
            · exact Or.inl h
          · exact Or.inr hc
  | rel p hp hu =>
    have hpstack : p ∉ s.pool.stack := by
      intro h
      rw [stack_free p h] at hu; exact Bool.false_ne_true hu
    have hpclaimed : p ∉ s.claimed := by
      intro h
      rw [claimed_free p h] at hu; exact Bool.false_ne_true hu
    constructor <;> simp only [release, Stack.push]
    · exact bound
    · exact sorted
    · intro x hx
      rcases List.mem_cons.mp hx with h | h
      · exact h ▸ hp
      · exact stack_sub x h
    · exact claimed_sub
    · exact List.nodup_cons.mpr ⟨hpstack, stack_nodup⟩
    · exact claimed_nodup
    · intro x hx
      rcases List.mem_cons.mp hx with h | h
      · exact h ▸ hpclaimed
      · exact disj x h
    · intro x hx
      rcases List.mem_cons.mp hx with h | h
      · subst h; simp [setInUse]
      · by_cases hxp : x = p
        · subst hxp; simp [setInUse]
        · simp only [setInUse, if_neg hxp]; exact stack_free x h
    · intro x hx
      have hne : x ≠ p := fun h => hpclaimed (h ▸ hx)
      simp only [setInUse, if_neg hne]
      exact claimed_free x hx
    · intro x hx hfree
      by_cases hxp : x = p
      · exact Or.inl (hxp ▸ List.mem_cons_self p _)
      · simp only [setInUse, if_neg hxp] at hfree
        rcases free_mem x hx hfree with hc | hc
        · exact Or.inl (List.mem_cons_of_mem _ hc)
        · exact Or.inr hc
  | ext =>
    constructor <;> simp only [extractAll, Stack.popAll]
    · exact bound
    · exact sorted
    · intro x hx; simp at hx
    · intro x hx
      rcases List.mem_append.mp hx with h | h
      · exact stack_sub x h
      · exact claimed_sub x h
    · simp
    · exact List.Nodup.append stack_nodup claimed_nodup (fun x hx => disj x hx)
    · intro x hx; simp at hx
    · intro x hx; simp at hx
    · intro x hx
      rcases List.mem_append.mp hx with h | h
      · exact stack_free x h
      · exact claimed_free x h
    · intro x hx hfree
      exact Or.inr (List.mem_append.mpr (free_mem x hx hfree))
  | res =>
    constructor <;> simp only [restore, Stack.pushChain]
    · exact bound
    · exact sorted
    · intro x hx
      rcases List.mem_append.mp hx with h | h
      · exact claimed_sub x h
      · exact stack_sub x h
    · intro x hx; simp at hx
    · exact List.Nodup.append claimed_nodup stack_nodup
        (fun x hx hx' => disj x hx' hx)
    · simp
    · intro x _ hx; simp at hx
    · intro x hx
      rcases List.mem_append.mp hx with h | h
      · exact claimed_free x h
      · exact stack_free x h
    · intro x hx; simp at hx
    · intro x hx hfree
      rcases free_mem x hx hfree with hc | hc
      · exact Or.inl (List.mem_append.mpr (Or.inr hc))
      · exact Or.inl (List.mem_append.mpr (Or.inl hc))

theorem inv_reachable (s : Sys) (h : Reachable s) : Inv s := by
  induction h with
  | refl => exact inv_init
  | tail _ hstep ih => exact inv_step _ _ ih hstep

/-- No operation ever removes an object from the registry. -/
theorem step_list_mono (s s' : Sys) (hstep : Step s s') (x : Nat)
    (hx : x ∈ s.pool.list) : x ∈ s'.pool.list := by
  cases hstep with
  | acq sok d p hit ps hacq =>
    cases hstack : s.pool.stack with
    | nil =>
      rw [acquire, hstack] at hacq
      cases sok with
      | false => simp [Stack.pop] at hacq
      | true =>
        simp only [Stack.pop, reduceIte, AcquireOut.ok.injEq] at hacq
        obtain ⟨hp, _hhit, hps⟩ := hacq
        subst hps
        exact List.mem_cons_of_mem _ hx
    | cons a rest =>
      rw [acquire, hstack] at hacq
      simp only [Stack.pop, AcquireOut.ok.injEq] at hacq
      obtain ⟨hp, _hhit, hps⟩ := hacq
      subst hps
      exact hx
  | rel p hp hu => exact hx
  | ext => exact hx
  | res => exact hx

/-- Registry membership persists along any run. -/
theorem rtc_list_mono (s s' : Sys) (h : Relation.ReflTransGen Step s s')
    (x : Nat) (hx : x ∈ s.pool.list) : x ∈ s'.pool.list := by
  induction h with
  | refl => exact hx
  | tail _ hstep ih => exact step_list_mono _ _ hstep x ih

theorem list_next_append (l₁ l₂ : List Nat) (a : Nat) (ha : a ∉ l₁) :
    list_next (l₁ ++ a :: l₂) a = l₂.head? := by
  induction l₁ with
  | nil => simp [list_next]
  | cons b l ih =>
    have hab : a ≠ b := fun h => ha (h ▸ List.mem_cons_self b l)
    have ha' : a ∉ l := fun h => ha (List.mem_cons_of_mem b h)
    simpa [list_next, if_neg hab] using ih ha'

/-- Walking the `list_next` successor relation down a duplicate-free chain
from the head of a suffix visits exactly that suffix. -/
theorem walk_suffix (l : List Nat) (hn : l.Nodup) :
    ∀ l₂ l₁, l = l₁ ++ l₂ →
      walk (fun p => list_next l p) l₂.length l₂.head? = l₂ := by
  intro l₂
  induction l₂ with
  | nil => intro l₁ _; simp [walk]
  | cons a t ih =>
    intro l₁ hl
    have ha : a ∉ l₁ := by
      intro hmem
      rw [hl] at hn
      exact (List.nodup_append.mp hn).2.2 hmem (List.mem_cons_self a t)
    have hnext : list_next l a = t.head? := by
      rw [hl]; exact list_next_append l₁ t a ha
    have ihs := ih (l₁ ++ [a]) (by rw [hl]; simp)
    simp only [List.head?_cons, List.length_cons, walk, hnext]
    rw [ihs]

/-- On a duplicate-free registry, a full `iterate` traversal is exactly the
registry list (head first). -/
theorem fullIterate_eq_list (s : PoolState) (hn : s.list.Nodup) :
    fullIterate s = s.list := by
  have h1 : fullIterate s
      = walk (fun p => list_next s.list p) s.list.length s.list.head? := rfl
  rw [h1]
  exact walk_suffix s.list hn s.list [] rfl

/-- In every reachable state, a full `iterate` traversal is exactly the
registry list. -/
theorem reachable_fullIterate (s : Sys) (h : Reachable s) :
    fullIterate s.pool = s.pool.list :=
  fullIterate_eq_list s.pool
    (((inv_reachable s h).sorted).imp fun hgt => Nat.ne_of_gt hgt)

/-! ## The singleton gate (`SingletonPoolState`) -/

/-- The static member `SingletonPoolState<T, SharedStateHandle>::state`: a
single global cell per type.  `pool()` always returns a reference to it; we
model references to it by this one-value type. -/
inductive PoolRef where
  | state
deriving DecidableEq

/-- The mutable context of `SingletonPoolState`: for each thread id, the
`thread_local` flag `initialized`, plus a counter of how many times the
`ensure_init` hook has run (to observe invocations). -/
structure GateState where
  inited : Nat → Bool
  hookRuns : Nat

/-- The gate before any thread has used the pool. -/
def initGate : GateState := { inited := fun _ => false, hookRuns := 0 }

/-- `SingletonPoolState::pool()` as executed by thread `tid`:
if the calling thread's `initialized` flag is unset, call `ensure_init`
(which invokes `SharedStateHandle::ensure_init()` when the type declares
it — `hasHook` — and does nothing otherwise) and set the flag; then return
a reference to the static `state`. -/
def poolCall (hasHook : Bool) (tid : Nat) (g : GateState) : PoolRef × GateState :=
  if g.inited tid then
    (PoolRef.state, g)
  else
    (PoolRef.state,
      { inited := fun t => if t = tid then true else g.inited t
        hookRuns := if hasHook then g.hookRuns + 1 else g.hookRuns })

/-! ## Concrete demonstration states -/

/-- The pool state carried by an `acquire` outcome (also the state at the
point of a fatal error). -/
def stateOf : AcquireOut → PoolState
  | AcquireOut.ok _ _ s => s
  | AcquireOut.fatalError _ s => s

/-- The object returned by an `acquire` outcome, if any. -/
def objOf : AcquireOut → Option Nat
  | AcquireOut.ok p _ _ => some p
  | AcquireOut.fatalError _ _ => none

/-- Whether the outcome took the free-list hit path, if it returned. -/
def hitOf : AcquireOut → Option Bool
  | AcquireOut.ok _ hit _ => some hit
  | AcquireOut.fatalError _ _ => none

/-- State after the first-ever `acquire` (constructs object 0). -/
def demo1 : PoolState := stateOf (acquire true 10 initPool)

/-- State after a second allocation-miss `acquire` (constructs object 1). -/
def demo2 : PoolState := stateOf (acquire true 20 demo1)

def demoSys1 : Sys := ⟨demo1, []⟩

def demoSys2 : Sys := ⟨demo2, []⟩

theorem step_init_demo1 : Step initSys demoSys1 :=
  Step.acq initSys true 10 0 false demo1 rfl

theorem reach_demo1 : Reachable demoSys1 :=
  Relation.ReflTransGen.single step_init_demo1

theorem step_demo12 : Step demoSys1 demoSys2 :=
  Step.acq demoSys1 true 20 1 false demo2 rfl

theorem reach_demo2 : Reachable demoSys2 :=
  Relation.ReflTransGen.tail reach_demo1 step_demo12

theorem rtc_demo12 : Relation.ReflTransGen Step demoSys1 demoSys2 :=
  Relation.ReflTransGen.single step_demo12

/-! ## Claims -/

/-- C1 (counterexample): the claim says `iterate(null)` returns the
first-ever-constructed object and traversal follows construction order.
After two allocation-miss `acquire` calls, object 0 was constructed first
and object 1 second, yet `iterate(null)` returns object 1 and the full
traversal is `[1, 0]` — the reverse of construction order — because
`acquire` splices new objects onto the registry *head*
(`p->list_next = pool.list; pool.list = p`). -/
theorem C1_counterexample :
    objOf (acquire true 10 initPool) = some 0 ∧
    objOf (acquire true 20 demo1) = some 1 ∧
    iterate demo2 none = some 1 ∧
    iterate demo2 none ≠ some 0 ∧
    fullIterate demo2 = [1, 0] ∧
    fullIterate demo2 ≠ [0, 1] := by
  refine ⟨rfl, rfl, rfl, by decide, rfl, by decide⟩

/-- C1 (amended): the registry is prepend-ordered.  In every reachable
state, `iterate(null)` returns the registry head — the most recently
constructed object — and a full `iterate` traversal visits exactly the
registry list, which is strictly decreasing in construction ids, i.e.
objects appear in reverse construction order. -/
theorem C1_amended_iterate_newest_first (s : Sys) (h : Reachable s) :
    iterate s.pool none = s.pool.list.head? ∧
    fullIterate s.pool = s.pool.list ∧
    s.pool.list.Pairwise (· > ·) :=
  ⟨rfl, reachable_fullIterate s h, (inv_reachable s h).sorted⟩

/-- C1 (amended, witness): the amended statement applied to the concrete
two-object state. -/
theorem C1_amended_witness :
    iterate demoSys2.pool none = demoSys2.pool.list.head? ∧
    fullIterate demoSys2.pool = demoSys2.pool.list ∧
    demoSys2.pool.list.Pairwise (· > ·) :=
  C1_amended_iterate_newest_first demoSys2 reach_demo2

/-- C2: once constructed, an object stays in the registry under any further
legal run of operations, and a full `iterate` traversal of any later state
lists it exactly once. -/
theorem C2_registry_permanent (s s' : Sys) (hs : Reachable s)
    (hss' : Relation.ReflTransGen Step s s') (x : Nat)
    (hx : x ∈ s.pool.list) :
    x ∈ s'.pool.list ∧ (fullIterate s'.pool).count x = 1 := by
  have hs' : Reachable s' := Relation.ReflTransGen.trans hs hss'
  have hx' := rtc_list_mono s s' hss' x hx
  have hnd : s'.pool.list.Nodup :=
    ((inv_reachable s' hs').sorted).imp fun hgt => Nat.ne_of_gt hgt
  rw [reachable_fullIterate s' hs']
  exact ⟨hx', List.count_eq_one_of_mem hnd hx'⟩

/-- C2 (witness): object 0, constructed by the first `acquire`, is still in
the registry after a further `acquire` and is traversed exactly once. -/
theorem C2_witness :
    0 ∈ demoSys2.pool.list ∧ (fullIterate demoSys2.pool).count 0 = 1 :=
  C2_registry_permanent demoSys1 demoSys2 reach_demo1 rtc_demo12 0 (by decide)

/-- C3: in every reachable state, a registered object outside the claimed
window is on the free-list exactly when its in-use flag is clear. -/
theorem C3_freelist_iff_not_in_use (s : Sys) (h : Reachable s) (x : Nat)
    (hx : x ∈ s.pool.list) (hc : x ∉ s.claimed) :
    x ∈ s.pool.stack ↔ (s.pool.heap x).in_use = false := by
  have hinv := inv_reachable s h
  constructor
  · intro hst; exact hinv.stack_free x hst
  · intro hfree
    rcases hinv.free_mem x hx hfree with h1 | h1
    · exact h1
    · exact absurd h1 hc

/-- C3 (witness): the invariant instantiated at the concrete one-object
state (object 0 is in use and off the free-list). -/
theorem C3_witness :
    0 ∈ demoSys1.pool.stack ↔ (demoSys1.pool.heap 0).in_use = false :=
  C3_freelist_iff_not_in_use demoSys1 reach_demo1 0 (by decide) (by decide)

/-- C4: when the free-list misses and the supplier fails, `acquire` ends in
the fatal platform-error outcome carrying the message passed to
`Pal::error`, with the pool state (registry and free-list) unchanged; in
particular it never returns an object on that path. -/
theorem C4_supplier_failure_fatal (d : Nat) (s : PoolState)
    (h : s.stack = []) :
    acquire false d s
      = AcquireOut.fatalError "Failed to initialise thread local allocator." s := by
  rw [acquire, h]
  rfl

/-- C4 (witness): the fatal path evaluated at the initial pool state. -/
theorem C4_witness :
    acquire false 5 initPool
      = AcquireOut.fatalError "Failed to initialise thread local allocator." initPool :=
  C4_supplier_failure_fatal 5 initPool rfl

/-- C5: `release p` clears `p`'s in-use flag (keeping its `data`), pushes
`p` onto the free-list, and changes nothing else: the registry, the fresh
counter, and every other object are untouched. -/
theorem C5_release_frame (s : PoolState) (p q : Nat) (hq : q ≠ p) :
    (release p s).heap p = { in_use := false, data := (s.heap p).data } ∧
    (release p s).stack = p :: s.stack ∧
    (release p s).list = s.list ∧
    (release p s).nextId = s.nextId ∧
    (release p s).heap q = s.heap q := by
  refine ⟨?_, rfl, rfl, rfl, ?_⟩
  · simp [release, setInUse]
  · simp [release, setInUse, hq]

/-- C5 (witness): the frame property of `release` at a concrete state. -/
theorem C5_witness :
    (release 0 initPool).heap 0 = { in_use := false, data := (initPool.heap 0).data } ∧
    (release 0 initPool).stack = 0 :: initPool.stack ∧
    (release 0 initPool).list = initPool.list ∧
    (release 0 initPool).nextId = initPool.nextId ∧
    (release 0 initPool).heap 1 = initPool.heap 1 :=
  C5_release_frame initPool 0 1 (by decide)

/-- C6: with an otherwise-empty free-list, `release x` immediately followed
by `acquire` returns `x` itself via the free-list hit path (no supplier
call — the supplier flag is irrelevant) and restores the pool state, hence
every field of `x`, to exactly its value from before the `release`. -/
theorem C6_release_acquire_roundtrip (s : PoolState) (x : Nat) (sok : Bool)
    (d : Nat) (hstack : s.stack = []) (hx : (s.heap x).in_use = true) :
    acquire sok d (release x s) = AcquireOut.ok x true s := by
  obtain ⟨st, li, hp, ni⟩ := s
  dsimp at hstack hx
  subst hstack
  have hheap : setInUse (setInUse hp x false) x true = hp := by
    funext q
    by_cases hqx : q = x
    · subst hqx
      simp only [setInUse, if_pos rfl]
      rw [← hx]
      simp
    · simp [setInUse, hqx]
  rw [acquire]
  simp [release, Stack.push, Stack.pop, hheap]

/-- C6 (witness): releasing then re-acquiring the only object of the
one-object state hands back object 0 and the original state. -/
theorem C6_witness :
    acquire true 99 (release 0 demo1) = AcquireOut.ok 0 true demo1 :=
  C6_release_acquire_roundtrip demo1 0 true 99 (by decide) (by decide)

/-- C7: `extract(null)` detaches the entire chain, leaving the free-list
empty and everything else unchanged, and `restore` of the unmodified chain
returns the pool exactly (hence set-equivalently) to the prior state; the
registry is unchanged throughout. -/
theorem C7_extract_restore_roundtrip (s : PoolState) :
    (extractAll s).1 = s.stack ∧
    (extractAll s).2.stack = [] ∧
    (extractAll s).2.list = s.list ∧
    (extractAll s).2.heap = s.heap ∧
    (extractAll s).2.nextId = s.nextId ∧
    restore (extractAll s).1 (extractAll s).2 = s := by
  obtain ⟨st, li, hp, ni⟩ := s
  refine ⟨rfl, rfl, rfl, rfl, rfl, ?_⟩
  simp [extractAll, restore, Stack.popAll, Stack.pushChain]

/-- C8: `extract(null)`, i.e. `pop_all`, on an empty free-list returns an
empty chain and leaves the state unchanged, so repeating it gives the same
result; `pop` on the empty free-list returns a null result. -/
theorem C8_extract_empty (s : PoolState) (h : s.stack = []) :
    (extractAll s).1 = [] ∧
    (extractAll s).2 = s ∧
    extractAll (extractAll s).2 = extractAll s ∧
    (Stack.pop s.stack).1 = none := by
  obtain ⟨st, li, hp, ni⟩ := s
  dsimp at h
  subst h
  exact ⟨rfl, rfl, rfl, rfl⟩

/-- C8 (witness): the empty-extract property at the initial pool state. -/
theorem C8_witness :
    (extractAll initPool).1 = [] ∧
    (extractAll initPool).2 = initPool ∧
    extractAll (extractAll initPool).2 = extractAll initPool ∧
    (Stack.pop initPool.stack).1 = none :=
  C8_extract_empty initPool rfl

/-- C9: every call to `pool()`, from any thread and in any gate state,
returns a reference to the one static `state`; on the calling thread's
first use the (declared) `ensure_init` hook runs before the reference is
returned, and on later uses the gate is untouched. -/
theorem C9_singleton_pool (hasHook : Bool) (tid : Nat) (g : GateState) :
    (poolCall hasHook tid g).1 = PoolRef.state ∧
    ((poolCall hasHook tid g).2).inited tid = true ∧
    (g.inited tid = false → hasHook = true →
      (poolCall hasHook tid g).2.hookRuns = g.hookRuns + 1) ∧
    (g.inited tid = true → (poolCall hasHook tid g).2 = g) := by
  unfold poolCall
  by_cases h : g.inited tid <;> simp [h]

/-- C9 (witness): a first call by thread 0 on the fresh gate with a
declared hook. -/
theorem C9_witness :
    (poolCall true 0 initGate).1 = PoolRef.state ∧
    ((poolCall true 0 initGate).2).inited 0 = true ∧
    (initGate.inited 0 = false → true = true →
      (poolCall true 0 initGate).2.hookRuns = initGate.hookRuns + 1) ∧
    (initGate.inited 0 = true → (poolCall true 0 initGate).2 = initGate) :=
  C9_singleton_pool true 0 initGate

/-- C10: `restore` only splices the chain onto the free-list: the heap
(every object's fields, in particular every in-use flag), the registry and
the fresh counter are all unchanged. -/
theorem C10_restore_frame (s : PoolState) (chain : List Nat) :
    (restore chain s).heap = s.heap ∧
    (restore chain s).list = s.list ∧
    (restore chain s).nextId = s.nextId ∧
    (restore chain s).stack = chain ++ s.stack ∧
    ∀ p, ((restore chain s).heap p).in_use = (s.heap p).in_use :=
  ⟨rfl, rfl, rfl, rfl, fun _ => rfl⟩

end SnPool
